import Mathlib

/-!
Shallow embedding of `src/aws/resource_aws_iam_credential_report.go`
(the single source file of the repository), together with theorems
settling the specification claims about it.

Modelling conventions:
* Go's `encoding/csv` reader is modelled at the record level: the raw byte
  payload is represented as the list of records the lexer would produce
  (each record a `List String` of fields).  Go's reader sets
  `FieldsPerRecord` from the first record it reads and rejects any later
  record whose field count differs (`ErrFieldCount`); `csvReadAll` embeds
  exactly that check.  Go's reader never emits an empty (zero-field) record,
  since blank lines are skipped; theorems that need this fact take it as an
  explicit hypothesis.
* A Go `map[string]int` built by `for i, k := range headerLine` maps each
  key to the index of its last occurrence, and lookup of an absent key
  yields the zero value `0`; `headerLookup` embeds both behaviours.
* `line[idx]` in Go panics when out of bounds; the embedding uses
  `List.getD line idx ""` and the bounds claim is proved separately.
* The regular expression `^arn:aws:iam::[0-9]+:mfa/(.*)$` is embedded as a
  character-list matcher, with Go semantics: `^`/`$` anchor at the start
  and end of the whole text and `.` does not match a newline.
* `resource.Retry`'s one-minute wall-clock budget is modelled as a fuel
  bound on the number of poll attempts; exhausting the fuel yields the
  timeout error, mirroring Go returning a `TimeoutError` when the deadline
  passes while the last result was retryable.
-/

namespace CredReport

/-- Embeds the Go struct `AccessKey` (Active, LastUsedDate, LastRotated). -/
structure AccessKey where
  Active : Bool
  LastUsedDate : String
  LastRotated : String
deriving DecidableEq

/-- Embeds the Go struct `ReportRow`. -/
structure ReportRow where
  User : String
  PasswordEnabled : Bool
  PasswordLastUsed : String
  PasswordLastChanged : String
  MfaActive : Bool
  MfaVirtual : Bool
  AccessKeys : List AccessKey
deriving DecidableEq

/-- `type CredentialReport = []*ReportRow`. -/
abbrev CredentialReport := List ReportRow

/-- Embeds `func parseCsvBool(csv string) bool { return csv == "true" }`. -/
def parseCsvBool (csv : String) : Bool := csv == "true"

/-- Helper for `headerLookup`: position of the last occurrence of `k` in the
remaining header fields, offset by the index `i` of the first of them.  The
tail is consulted first so that, as with Go's `header[k] = i` loop, a later
duplicate column name overrides an earlier one. -/
def headerLookupAux : List String → Nat → String → Option Nat
  | [], _, _ => none
  | h :: t, i, k =>
    match headerLookupAux t (i + 1) k with
    | some j => some j
    | none => if h = k then some i else none

/-- Embeds the Go map built by `for i, k := range headerLine { header[k] = i }`
followed by the lookup `header[k]`: the index of the last occurrence of `k`
in `headerLine`, or the zero value `0` when `k` is absent. -/
def headerLookup (headerLine : List String) (k : String) : Nat :=
  (headerLookupAux headerLine 0 k).getD 0

/-- `line[header[k]]` with the out-of-bounds case made total (`""`); the
bounds claim is proved separately. -/
def fieldAt (headerLine line : List String) (k : String) : String :=
  line.getD (headerLookup headerLine k) ""

/-- Embeds the body of the `for i, line := range lines` loop of
`parseCsvCredentialReport`: one `ReportRow` decoded from one CSV record via
the header mapping.  `MfaVirtual` is left at Go's zero value `false`. -/
def parseCsvRow (headerLine line : List String) : ReportRow :=
  { User := fieldAt headerLine line "user"
    PasswordEnabled := parseCsvBool (fieldAt headerLine line "password_enabled")
    PasswordLastUsed := fieldAt headerLine line "password_last_used"
    PasswordLastChanged := fieldAt headerLine line "password_last_changed"
    MfaActive := parseCsvBool (fieldAt headerLine line "mfa_active")
    MfaVirtual := false
    AccessKeys :=
      [{ Active := parseCsvBool (fieldAt headerLine line "access_key_1_active")
         LastUsedDate := fieldAt headerLine line "access_key_1_last_used_date"
         LastRotated := fieldAt headerLine line "access_key_1_last_rotated" },
       { Active := parseCsvBool (fieldAt headerLine line "access_key_2_active")
         LastUsedDate := fieldAt headerLine line "access_key_2_last_used_date"
         LastRotated := fieldAt headerLine line "access_key_2_last_rotated" }] }

/-- Embeds `reader.ReadAll()` after the header has been read: Go's csv
reader returns `ErrFieldCount` as soon as a record's field count differs
from `FieldsPerRecord` (set to the header's field count by the first
`Read`), and `ReadAll` then returns `nil, err`. -/
def csvReadAll (n : Nat) : List (List String) → Except String (List (List String))
  | [] => Except.ok []
  | l :: ls =>
    if l.length = n then
      match csvReadAll n ls with
      | Except.ok rest => Except.ok (l :: rest)
      | Except.error e => Except.error e
    else Except.error "record has wrong number of fields"

/-- Embeds `func parseCsvCredentialReport(content []byte)` over the
record-level representation of the payload: the first record is the header
(`reader.Read()`, which fails with `io.EOF` on an empty payload), the rest
are the data records (`reader.ReadAll()` with the field-count check), and
each data record is decoded positionally through the header map. -/
def parseCsvCredentialReport (content : List (List String)) :
    Except String CredentialReport :=
  match content with
  | [] => Except.error "EOF"
  | headerLine :: rest =>
    match csvReadAll headerLine.length rest with
    | Except.error e => Except.error e
    | Except.ok lines => Except.ok (lines.map (parseCsvRow headerLine))

/-- Strips the literal character sequence `p` from the front of `cs`,
returning the remainder, or `none` when `cs` does not start with `p`. -/
def dropLit : List Char → List Char → Option (List Char)
  | [], cs => some cs
  | _ :: _, [] => none
  | p :: ps, c :: cs => if c = p then dropLit ps cs else none

/-- Embeds the full-string match of `^arn:aws:iam::[0-9]+:mfa/(.*)$` in Go
semantics (`^`/`$` anchor at the text boundaries, `.` does not match a
newline): returns the characters captured by `(.*)`, or `none` when the
serial does not match. -/
def matchMfaSerial (cs : List Char) : Option (List Char) :=
  match dropLit ("arn:aws:iam::".data) cs with
  | none => none
  | some r1 =>
    let ds := r1.takeWhile Char.isDigit
    let r2 := r1.dropWhile Char.isDigit
    if ds.isEmpty then none
    else
      match dropLit (":mfa/".data) r2 with
      | none => none
      | some r3 => if r3.contains '\n' then none else some r3

/-- Embeds the per-device body of the MFA loop in
`resourceAwsIamCredentialReportRead`: extract the `(.*)` capture as the
account name and rewrite the literal `root-account-mfa-device` to the
normalized marker; `none` when the serial does not match the pattern
(the device is skipped). -/
def extractMfaUser (serial : String) : Option String :=
  (matchMfaSerial serial.data).map (fun cs =>
    let accountName := String.mk cs
    if accountName = "root-account-mfa-device" then "<root_account>" else accountName)

/-- Embeds the Go set `accountsWithVirtualMfa` (`map[string]bool` used as a
set): the extracted names of all devices whose serial matches the pattern.
Represented as a list whose membership is the set membership. -/
def accountsWithVirtualMfa (serials : List String) : List String :=
  serials.filterMap extractMfaUser

/-- One step of the enrichment loop `for _, row := range report`: set
`MfaVirtual` to `true` when the row's user is in the set, leave the row
unchanged otherwise. -/
def enrichRow (accounts : List String) (row : ReportRow) : ReportRow :=
  if row.User ∈ accounts then { row with MfaVirtual := true } else row

/-- Embeds the virtual-MFA enrichment step of
`resourceAwsIamCredentialReportRead` (building the set once, then updating
each row in place). -/
def enrichReport (serials : List String) (report : CredentialReport) :
    CredentialReport :=
  report.map (enrichRow (accountsWithVirtualMfa serials))

/-- Value type of the generic `map[string]interface{}` entries produced by
the flatteners: a string, a boolean, or a nested list of string-keyed maps. -/
inductive FlatVal where
  | str : String → FlatVal
  | boolean : Bool → FlatVal
  | maps : List (List (String × FlatVal)) → FlatVal

/-- A `map[string]interface{}` with the fixed schema keys, represented as an
association list in the source order of the Go map literal. -/
abbrev FlatMap := List (String × FlatVal)

/-- The flattened report stored via `d.Set("report", ...)`. -/
abbrev FlatReport := List FlatMap

/-- Embeds `func flattenAccessKeys`: one map per access key, in order. -/
def flattenAccessKeys (accessKeys : List AccessKey) : FlatReport :=
  accessKeys.map (fun accessKey =>
    [("active", FlatVal.boolean accessKey.Active),
     ("last_used_date", FlatVal.str accessKey.LastUsedDate),
     ("last_rotated", FlatVal.str accessKey.LastRotated)])

/-- The map built for one row by the body of `flattenCredentialReport`. -/
def flattenRow (row : ReportRow) : FlatMap :=
  [("user", FlatVal.str row.User),
   ("password_enabled", FlatVal.boolean row.PasswordEnabled),
   ("password_last_used", FlatVal.str row.PasswordLastUsed),
   ("password_last_changed", FlatVal.str row.PasswordLastChanged),
   ("mfa_active", FlatVal.boolean row.MfaActive),
   ("mfa_virtual", FlatVal.boolean row.MfaVirtual),
   ("access_keys", FlatVal.maps (flattenAccessKeys row.AccessKeys))]

/-- Embeds `func flattenCredentialReport`: the append loop over the rows is
exactly a map, one output map per row, in order. -/
def flattenCredentialReport (report : CredentialReport) : FlatReport :=
  report.map flattenRow

/-- Spec-side inverse mapping (for the round-trip claim): look a key up in a
flattened map, matching Go's map access in an equivalent reader. -/
def lookupFlat (m : FlatMap) (k : String) : Option FlatVal :=
  (m.find? (fun p => p.1 == k)).map Prod.snd

/-- Spec-side inverse mapping: read a string value back. -/
def asStr : Option FlatVal → Option String
  | some (FlatVal.str s) => some s
  | _ => none

/-- Spec-side inverse mapping: read a boolean value back. -/
def asBool : Option FlatVal → Option Bool
  | some (FlatVal.boolean b) => some b
  | _ => none

/-- Spec-side inverse mapping: read a nested list of maps back. -/
def asMaps : Option FlatVal → Option FlatReport
  | some (FlatVal.maps ms) => some ms
  | _ => none

/-- Spec-side inverse mapping: rebuild one `AccessKey` from its map. -/
def unflattenAccessKey (m : FlatMap) : Option AccessKey := do
  let a ← asBool (lookupFlat m "active")
  let u ← asStr (lookupFlat m "last_used_date")
  let r ← asStr (lookupFlat m "last_rotated")
  some { Active := a, LastUsedDate := u, LastRotated := r }

/-- Spec-side inverse mapping: rebuild the access-key list. -/
def unflattenAccessKeys : FlatReport → Option (List AccessKey)
  | [] => some []
  | m :: ms => do
    let k ← unflattenAccessKey m
    let ks ← unflattenAccessKeys ms
    some (k :: ks)

/-- Spec-side inverse mapping: rebuild one `ReportRow` from its map. -/
def unflattenRow (m : FlatMap) : Option ReportRow :=
  match asStr (lookupFlat m "user"), asBool (lookupFlat m "password_enabled"),
      asStr (lookupFlat m "password_last_used"),
      asStr (lookupFlat m "password_last_changed"),
      asBool (lookupFlat m "mfa_active"), asBool (lookupFlat m "mfa_virtual"),
      asMaps (lookupFlat m "access_keys") with
  | some u, some pe, some plu, some plc, some ma, some mv, some akm =>
    Option.map
      (fun aks =>
        { User := u, PasswordEnabled := pe, PasswordLastUsed := plu,
          PasswordLastChanged := plc, MfaActive := ma, MfaVirtual := mv,
          AccessKeys := aks })
      (unflattenAccessKeys akm)
  | _, _, _, _, _, _, _ => none

/-- Spec-side inverse mapping: rebuild the whole report. -/
def unflattenReport : FlatReport → Option CredentialReport
  | [] => some []
  | m :: ms => do
    let r ← unflattenRow m
    let rs ← unflattenReport ms
    some (r :: rs)

/-- Result of one `iamconn.GetCredentialReport` call: the named error
`"ReportInProgress"`, any other error, or the report content (record-level). -/
inductive GetReportResult where
  | inProgress
  | fail (e : String)
  | ok (content : List (List String))
deriving DecidableEq

/-- Classified error of the whole read operation. -/
inductive ReadError where
  | generate (e : String)
  | getReport (e : String)
  | parse (e : String)
  | listMfa (e : String)
  | timeout
deriving DecidableEq

/-- Outcome of the read operation as seen by the caller. -/
inductive ReadResult where
  | ok
  | fail (e : ReadError)
deriving DecidableEq

/-- The environment of one read: the result of `GenerateCredentialReport`
(`none` = success), the result of the k-th `GetCredentialReport` attempt,
and the result of `ListVirtualMFADevices` (the serial numbers). -/
structure ReadEnv where
  generate : Option String
  getReport : Nat → GetReportResult
  listMfa : Except String (List String)

/-- What one execution of the retry closure decides. -/
inductive RetryStep where
  | retryable
  | fatal (e : ReadError)
  | done (flat : FlatReport)

/-- Embeds the body of the `resource.Retry` closure in
`resourceAwsIamCredentialReportRead` for the k-th attempt: a
`"ReportInProgress"` error is retryable; any other get-report error, a parse
failure, and a list-MFA failure are non-retryable; otherwise the report is
parsed, enriched and flattened, and `d.Set("report", ...)` is reached. -/
def readAttempt (env : ReadEnv) (k : Nat) : RetryStep :=
  match env.getReport k with
  | GetReportResult.inProgress => RetryStep.retryable
  | GetReportResult.fail e => RetryStep.fatal (ReadError.getReport e)
  | GetReportResult.ok content =>
    match parseCsvCredentialReport content with
    | Except.error e => RetryStep.fatal (ReadError.parse e)
    | Except.ok report =>
      match env.listMfa with
      | Except.error e => RetryStep.fatal (ReadError.listMfa e)
      | Except.ok serials =>
        RetryStep.done (flattenCredentialReport (enrichReport serials report))

/-- Embeds `resource.Retry`: run the closure, retry on a retryable error
while fuel (the time budget, counted in attempts) remains, stop on a
non-retryable error or success.  The state component is the `report` field
of the resource data, written only by `d.Set` in the success branch. -/
def retryLoop (env : ReadEnv) : Nat → Nat → Option FlatReport →
    Option FlatReport × ReadResult
  | _, 0, st => (st, ReadResult.fail ReadError.timeout)
  | k, fuel + 1, st =>
    match readAttempt env k with
    | RetryStep.retryable => retryLoop env (k + 1) fuel st
    | RetryStep.fatal e => (st, ReadResult.fail e)
    | RetryStep.done flat => (some flat, ReadResult.ok)

/-- Embeds `resourceAwsIamCredentialReportRead`: trigger report generation
(any error aborts immediately), then poll. -/
def readOp (env : ReadEnv) (fuel : Nat) (st : Option FlatReport) :
    Option FlatReport × ReadResult :=
  match env.generate with
  | some e => (st, ReadResult.fail (ReadError.generate e))
  | none => retryLoop env 0 fuel st

/-- The resource data visible to the lifecycle functions: the synthetic id
and the `report` state field. -/
structure ResourceData where
  id : String
  report : Option FlatReport

/-- Embeds `resourceAwsIamCredentialReportUpdate` (also installed as
`Create`): `d.SetId("iam-credential-report")` followed by the read. -/
def updateOp (env : ReadEnv) (fuel : Nat) (d : ResourceData) :
    ResourceData × ReadResult :=
  let d1 : ResourceData := { d with id := "iam-credential-report" }
  let r := readOp env fuel d1.report
  ({ d1 with report := r.1 }, r.2)

/-- `Create` is the same Go function as `Update`. -/
def createOp (env : ReadEnv) (fuel : Nat) (d : ResourceData) :
    ResourceData × ReadResult :=
  updateOp env fuel d

/-- Embeds `resourceAwsIamCredentialReportDelete`: `return nil` — no
external call is available to it (it takes no environment) and the state is
returned untouched. -/
def deleteOp (d : ResourceData) : ResourceData × ReadResult :=
  (d, ReadResult.ok)

/-- A concrete credential-report header with all required columns. -/
def demoHeader : List String :=
  ["user", "password_enabled", "password_last_used", "password_last_changed",
   "mfa_active", "access_key_1_active", "access_key_1_last_used_date",
   "access_key_1_last_rotated", "access_key_2_active",
   "access_key_2_last_used_date", "access_key_2_last_rotated"]

/-- A concrete data record matching `demoHeader`. -/
def demoLine : List String :=
  ["alice", "true", "2020-01-01", "2019-01-01", "false", "true",
   "2020-02-02", "2019-02-02", "false", "N/A", "N/A"]

/-- A concrete record-level payload: header plus one data record. -/
def demoContent : List (List String) := [demoHeader, demoLine]

/-- Concrete virtual-MFA serial numbers: one matching the pattern, one not. -/
def demoSerials : List String :=
  ["arn:aws:iam::123456789012:mfa/alice", "not-an-arn"]

/-- A concrete parsed row (what `demoLine` decodes to under `demoHeader`). -/
def demoRow : ReportRow :=
  { User := "alice", PasswordEnabled := true, PasswordLastUsed := "2020-01-01",
    PasswordLastChanged := "2019-01-01", MfaActive := false, MfaVirtual := false,
    AccessKeys :=
      [{ Active := true, LastUsedDate := "2020-02-02", LastRotated := "2019-02-02" },
       { Active := false, LastUsedDate := "N/A", LastRotated := "N/A" }] }

/-- A concrete environment: report in progress on the first two attempts,
then ready. -/
def demoEnv : ReadEnv :=
  { generate := none
    getReport := fun k =>
      if k < 2 then GetReportResult.inProgress else GetReportResult.ok demoContent
    listMfa := Except.ok demoSerials }

/-- A concrete environment whose report is never ready. -/
def demoEnvStuck : ReadEnv :=
  { generate := none
    getReport := fun _ => GetReportResult.inProgress
    listMfa := Except.ok [] }

/-- A concrete environment whose get-report call always fails hard. -/
def demoEnvBroken : ReadEnv :=
  { generate := none
    getReport := fun _ => GetReportResult.fail "boom"
    listMfa := Except.ok [] }

/-- A concrete header lacking every required column. -/
def noUserHeader : List String := ["a", "b"]

/-- A concrete data record matching `noUserHeader`. -/
def noUserLine : List String := ["x", "y"]

lemma headerLookupAux_lt (k : String) :
    ∀ (hl : List String) (i j : Nat),
      headerLookupAux hl i k = some j → i ≤ j ∧ j < i + hl.length := by
  intro hl
  induction hl with
  | nil => intro i j h; simp [headerLookupAux] at h
  | cons a t ih =>
    intro i j h
    simp only [headerLookupAux] at h
    split at h
    case _ j' heq =>
      injection h with h2
      subst h2
      have := ih (i + 1) j' heq
      simp only [List.length_cons]
      omega
    case _ heq =>
      split at h
      · injection h with h2
        subst h2
        simp only [List.length_cons]
        omega
      · exact absurd h (by simp)

lemma headerLookupAux_none_of_not_mem (k : String) :
    ∀ (hl : List String) (i : Nat), k ∉ hl → headerLookupAux hl i k = none := by
  intro hl
  induction hl with
  | nil => intro i _; rfl
  | cons a t ih =>
    intro i h
    have hak : a ≠ k := fun hc => h (hc ▸ List.mem_cons_self a t)
    have ht : k ∉ t := fun hc => h (List.mem_cons_of_mem a hc)
    simp only [headerLookupAux, ih (i + 1) ht, hak, if_false]

lemma headerLookup_of_not_mem (hl : List String) (k : String) (h : k ∉ hl) :
    headerLookup hl k = 0 := by
  simp [headerLookup, headerLookupAux_none_of_not_mem k hl 0 h]

lemma headerLookup_lt (hl : List String) (k : String) (h : hl ≠ []) :
    headerLookup hl k < hl.length := by
  have hlen : 0 < hl.length := List.length_pos.mpr h
  unfold headerLookup
  cases haux : headerLookupAux hl 0 k with
  | none => simpa using hlen
  | some j =>
    have := headerLookupAux_lt k hl 0 j haux
    simpa using this.2

lemma csvReadAll_ok :
    ∀ (n : Nat) (ls out : List (List String)),
      csvReadAll n ls = Except.ok out → out = ls ∧ ∀ l ∈ ls, l.length = n := by
  intro n ls
  induction ls with
  | nil =>
    intro out h
    simp only [csvReadAll] at h
    obtain rfl : ([] : List (List String)) = out := by simpa using h
    simp
  | cons l t ih =>
    intro out h
    simp only [csvReadAll] at h
    by_cases hl : l.length = n
    · rw [if_pos hl] at h
      cases ht : csvReadAll n t with
      | ok rest =>
        rw [ht] at h
        obtain rfl : l :: rest = out := by simpa using h
        obtain ⟨rfl, hall⟩ := ih rest ht
        refine ⟨rfl, ?_⟩
        intro l' hl'
        rcases List.mem_cons.mp hl' with rfl | hmem
        · exact hl
        · exact hall l' hmem
      | error e => rw [ht] at h; simp at h
    · rw [if_neg hl] at h; simp at h

lemma csvReadAll_of_valid :
    ∀ (n : Nat) (ls : List (List String)),
      (∀ l ∈ ls, l.length = n) → csvReadAll n ls = Except.ok ls := by
  intro n ls
  induction ls with
  | nil => intro _; rfl
  | cons l t ih =>
    intro h
    have hl : l.length = n := h l (List.mem_cons_self l t)
    have ht := ih (fun l' hl' => h l' (List.mem_cons_of_mem l hl'))
    simp only [csvReadAll, if_pos hl, ht]

lemma parseCsvCredentialReport_of_valid (headerLine : List String)
    (lines : List (List String))
    (hv : ∀ l ∈ lines, l.length = headerLine.length) :
    parseCsvCredentialReport (headerLine :: lines) =
      Except.ok (lines.map (parseCsvRow headerLine)) := by
  simp only [parseCsvCredentialReport,
    csvReadAll_of_valid headerLine.length lines hv]

/-- Claim C3: `parseCsvBool` returns `true` exactly on the case-sensitive
literal `"true"`; every other string maps to `false`. -/
theorem parseCsvBool_true_iff (s : String) :
    parseCsvBool s = true ↔ s = "true" := by
  simp [parseCsvBool]

/-- Claim C8: create and update always set the resource id to the constant
`"iam-credential-report"` (independent of the environment, the fuel, and the
prior state), create is the very same operation as update, and delete
performs no external call and returns the state untouched with success. -/
theorem lifecycle_constant_id_and_noop_delete (env : ReadEnv) (fuel : Nat)
    (d : ResourceData) :
    (createOp env fuel d).1.id = "iam-credential-report" ∧
    (updateOp env fuel d).1.id = "iam-credential-report" ∧
    createOp env fuel d = updateOp env fuel d ∧
    deleteOp d = (d, ReadResult.ok) :=
  ⟨rfl, rfl, rfl, rfl⟩

lemma unflattenAccessKey_flatten (a : AccessKey) :
    unflattenAccessKey
      [("active", FlatVal.boolean a.Active),
       ("last_used_date", FlatVal.str a.LastUsedDate),
       ("last_rotated", FlatVal.str a.LastRotated)] = some a := rfl

lemma unflattenAccessKeys_flatten (ks : List AccessKey) :
    unflattenAccessKeys (flattenAccessKeys ks) = some ks := by
  induction ks with
  | nil => rfl
  | cons k t ih =>
    simp only [flattenAccessKeys, List.map_cons] at ih ⊢
    simp only [unflattenAccessKeys, unflattenAccessKey_flatten, ih]
    rfl

lemma unflattenRow_flatten (r : ReportRow) :
    unflattenRow (flattenRow r) = some r := by
  show Option.map
      (fun aks =>
        { User := r.User, PasswordEnabled := r.PasswordEnabled,
          PasswordLastUsed := r.PasswordLastUsed,
          PasswordLastChanged := r.PasswordLastChanged,
          MfaActive := r.MfaActive, MfaVirtual := r.MfaVirtual,
          AccessKeys := aks })
      (unflattenAccessKeys (flattenAccessKeys r.AccessKeys)) = some r
  rw [unflattenAccessKeys_flatten r.AccessKeys]
  rfl

/-- Claim C6: flattening is the pure order-preserving map of `flattenRow`
over the rows, and it is lossless — reading the flattened maps back through
the inverse field mapping recovers every field of every row exactly. -/
theorem flatten_lossless_roundtrip (report : CredentialReport) :
    flattenCredentialReport report = report.map flattenRow ∧
    unflattenReport (flattenCredentialReport report) = some report := by
  refine ⟨rfl, ?_⟩
  induction report with
  | nil => rfl
  | cons r rs ih =>
    simp only [flattenCredentialReport, List.map_cons] at ih ⊢
    simp only [unflattenReport, unflattenRow_flatten r, ih]
    rfl

/-- Claim C4: on a valid payload (header plus data records of matching
field count) the parser succeeds, produces exactly one output row per data
record, and the i-th output row is decoded from the i-th data record. -/
theorem parse_valid_rows_in_order (headerLine : List String)
    (lines : List (List String))
    (hv : ∀ l ∈ lines, l.length = headerLine.length) :
    parseCsvCredentialReport (headerLine :: lines) =
      Except.ok (lines.map (parseCsvRow headerLine)) ∧
    (lines.map (parseCsvRow headerLine)).length = lines.length ∧
    ∀ (i : Nat) (hi : i < lines.length)
      (hi' : i < (lines.map (parseCsvRow headerLine)).length),
      (lines.map (parseCsvRow headerLine)).get ⟨i, hi'⟩ =
        parseCsvRow headerLine (lines.get ⟨i, hi⟩) := by
  refine ⟨parseCsvCredentialReport_of_valid headerLine lines hv,
    List.length_map lines (parseCsvRow headerLine), ?_⟩
  intro i hi hi'
  simp [List.get_eq_getElem, List.getElem_map]

/-- Claim C4 witness: the demo payload (header plus one record) parses to
exactly that record's row, in order. -/
theorem parse_valid_rows_in_order_witness :
    parseCsvCredentialReport (demoHeader :: [demoLine]) =
      Except.ok ([demoLine].map (parseCsvRow demoHeader)) ∧
    ([demoLine].map (parseCsvRow demoHeader)).length = [demoLine].length ∧
    ∀ (i : Nat) (hi : i < [demoLine].length)
      (hi' : i < ([demoLine].map (parseCsvRow demoHeader)).length),
      ([demoLine].map (parseCsvRow demoHeader)).get ⟨i, hi'⟩ =
        parseCsvRow demoHeader ([demoLine].get ⟨i, hi⟩) :=
  parse_valid_rows_in_order demoHeader [demoLine] (by decide)

/-- Claim C1 counterexample: a payload whose header has none of the
required columns (header `["a", "b"]`) does not fail the parse — it parses
to one row (with the `user` field read from column 0), and the read
operation over it succeeds rather than failing. -/
theorem missing_column_counterexample :
    parseCsvCredentialReport [noUserHeader, noUserLine] =
      Except.ok [parseCsvRow noUserHeader noUserLine] ∧
    (parseCsvRow noUserHeader noUserLine).User = "x" ∧
    (readOp
      { generate := none
        getReport := fun _ => GetReportResult.ok [noUserHeader, noUserLine]
        listMfa := Except.ok [] } 1 none).2 = ReadResult.ok :=
  ⟨rfl, rfl, rfl⟩

/-- Claim C1 (amended): a header missing a required column (here `user`)
does not fail the parse; the lookup of the absent column name yields the
default index 0, so the affected field is read from the record's first
column, and a structurally valid payload still parses to all its data
rows. -/
theorem parse_missing_column_defaults (headerLine : List String)
    (lines : List (List String))
    (hv : ∀ l ∈ lines, l.length = headerLine.length)
    (hm : "user" ∉ headerLine) :
    parseCsvCredentialReport (headerLine :: lines) =
      Except.ok (lines.map (parseCsvRow headerLine)) ∧
    headerLookup headerLine "user" = 0 ∧
    ∀ l ∈ lines, (parseCsvRow headerLine l).User = l.getD 0 "" := by
  have h0 : headerLookup headerLine "user" = 0 :=
    headerLookup_of_not_mem headerLine "user" hm
  refine ⟨parseCsvCredentialReport_of_valid headerLine lines hv, h0, ?_⟩
  intro l _
  simp [parseCsvRow, fieldAt, h0]

/-- Claim C1 witness: the amended claim at the concrete header `["a","b"]`
and record `["x","y"]`. -/
theorem parse_missing_column_defaults_witness :
    parseCsvCredentialReport (noUserHeader :: [noUserLine]) =
      Except.ok ([noUserLine].map (parseCsvRow noUserHeader)) ∧
    headerLookup noUserHeader "user" = 0 ∧
    ∀ l ∈ [noUserLine], (parseCsvRow noUserHeader l).User = l.getD 0 "" :=
  parse_missing_column_defaults noUserHeader [noUserLine] (by decide) (by decide)

/-- Claim C9: the parser is total (every payload yields an error or a row
list); a column name absent from the header map yields the default index 0;
and in every successful parse with a non-empty header record (Go's csv
reader never yields an empty record) every column lookup is strictly within
the bounds of every data record, because the reader rejects records whose
field count differs from the header's. -/
theorem parse_total_and_in_bounds :
    (∀ content, (∃ e, parseCsvCredentialReport content = Except.error e) ∨
      (∃ rows, parseCsvCredentialReport content = Except.ok rows)) ∧
    (∀ (headerLine : List String) (k : String),
      k ∉ headerLine → headerLookup headerLine k = 0) ∧
    (∀ (headerLine : List String) (lines : List (List String))
      (rows : CredentialReport),
      parseCsvCredentialReport (headerLine :: lines) = Except.ok rows →
      headerLine ≠ [] →
      ∀ (k : String) (l : List String), l ∈ lines →
        headerLookup headerLine k < l.length) := by
  refine ⟨?_, ?_, ?_⟩
  · intro content
    cases h : parseCsvCredentialReport content with
    | error e => exact Or.inl ⟨e, rfl⟩
    | ok rows => exact Or.inr ⟨rows, rfl⟩
  · intro headerLine k hk
    exact headerLookup_of_not_mem headerLine k hk
  · intro headerLine lines rows hp hne k l hl
    simp only [parseCsvCredentialReport] at hp
    cases hc : csvReadAll headerLine.length lines with
    | error e => rw [hc] at hp; exact absurd hp (by simp)
    | ok lines' =>
      rw [hc] at hp
      have hlen := (csvReadAll_ok headerLine.length lines lines' hc).2 l hl
      rw [hlen]
      exact headerLookup_lt headerLine k hne

/-- Claim C9 witness: at the concrete header `["a","b"]` and record
`["x","y"]`, an absent column name maps to index 0 and every lookup is in
bounds of the record. -/
theorem parse_total_and_in_bounds_witness :
    headerLookup noUserHeader "zzz" = 0 ∧
    headerLookup noUserHeader "user" < noUserLine.length :=
  ⟨parse_total_and_in_bounds.2.1 noUserHeader "zzz" (by decide),
   parse_total_and_in_bounds.2.2 noUserHeader [noUserLine]
     ([noUserLine].map (parseCsvRow noUserHeader)) (by rfl) (by decide)
     "user" noUserLine (by decide)⟩

/-- Claim C5: every serial matching the ARN pattern contributes its
captured name — with the literal `root-account-mfa-device` rewritten to
`<root_account>` first — to the account set; every row whose user is in
that set is flagged `MfaVirtual = true` by enrichment; and a serial not
matching the pattern contributes nothing to the set and leaves the
enrichment result unchanged (enrichment is total, so no error is
possible). -/
theorem mfa_enrichment (serials : List String) (report : CredentialReport) :
    (∀ s ∈ serials, ∀ cs, matchMfaSerial s.data = some cs →
      (if String.mk cs = "root-account-mfa-device" then "<root_account>"
       else String.mk cs) ∈ accountsWithVirtualMfa serials) ∧
    (∀ (i : Nat) (hi : i < report.length)
      (hi' : i < (enrichReport serials report).length),
      (report.get ⟨i, hi⟩).User ∈ accountsWithVirtualMfa serials →
      ((enrichReport serials report).get ⟨i, hi'⟩).MfaVirtual = true) ∧
    (∀ s, matchMfaSerial s.data = none → ∀ rest,
      accountsWithVirtualMfa (s :: rest) = accountsWithVirtualMfa rest ∧
      enrichReport (s :: rest) report = enrichReport rest report) := by
  refine ⟨?_, ?_, ?_⟩
  · intro s hs cs hm
    have hx : extractMfaUser s =
        some (if String.mk cs = "root-account-mfa-device" then "<root_account>"
          else String.mk cs) := by
      simp [extractMfaUser, hm]
    exact List.mem_filterMap.mpr ⟨s, hs, hx⟩
  · intro i hi hi' hmem
    simp only [enrichReport, List.get_eq_getElem, List.getElem_map]
    simp only [List.get_eq_getElem] at hmem
    simp [enrichRow, hmem]
  · intro s hm rest
    have hx : extractMfaUser s = none := by simp [extractMfaUser, hm]
    have hset : accountsWithVirtualMfa (s :: rest) =
        accountsWithVirtualMfa rest := by
      simp [accountsWithVirtualMfa, List.filterMap_cons, hx]
    exact ⟨hset, by simp [enrichReport, hset]⟩

/-- Claim C5 witness: with the demo serials (one matching ARN for `alice`,
one garbage identifier), the set contains `alice`, the demo row for
`alice` is flagged, and the garbage identifier adds nothing to the set. -/
theorem mfa_enrichment_witness :
    ((enrichReport demoSerials [demoRow]).get
      ⟨0, by decide⟩).MfaVirtual = true ∧
    accountsWithVirtualMfa ("not-an-arn" :: []) = accountsWithVirtualMfa [] :=
  ⟨(mfa_enrichment demoSerials [demoRow]).2.1 0 (by decide) (by decide)
      (by decide),
   ((mfa_enrichment demoSerials [demoRow]).2.2 "not-an-arn" (by decide) []).1⟩

/-- Claim C10: enrichment changes only the `MfaVirtual` field — row count
and order are unchanged, every other field of every row keeps its
pre-enrichment value, and the new `MfaVirtual` is the old value or-ed with
the set membership of the row's user (so it can only go from `false` to
`true`, never from `true` to `false`). -/
theorem enrich_frame (serials : List String) (report : CredentialReport) :
    (enrichReport serials report).length = report.length ∧
    ∀ (i : Nat) (hi : i < report.length)
      (hi' : i < (enrichReport serials report).length),
      ((enrichReport serials report).get ⟨i, hi'⟩).User =
        (report.get ⟨i, hi⟩).User ∧
      ((enrichReport serials report).get ⟨i, hi'⟩).PasswordEnabled =
        (report.get ⟨i, hi⟩).PasswordEnabled ∧
      ((enrichReport serials report).get ⟨i, hi'⟩).PasswordLastUsed =
        (report.get ⟨i, hi⟩).PasswordLastUsed ∧
      ((enrichReport serials report).get ⟨i, hi'⟩).PasswordLastChanged =
        (report.get ⟨i, hi⟩).PasswordLastChanged ∧
      ((enrichReport serials report).get ⟨i, hi'⟩).MfaActive =
        (report.get ⟨i, hi⟩).MfaActive ∧
      ((enrichReport serials report).get ⟨i, hi'⟩).AccessKeys =
        (report.get ⟨i, hi⟩).AccessKeys ∧
      ((enrichReport serials report).get ⟨i, hi'⟩).MfaVirtual =
        ((report.get ⟨i, hi⟩).MfaVirtual ||
          decide ((report.get ⟨i, hi⟩).User ∈ accountsWithVirtualMfa serials)) := by
  refine ⟨by simp [enrichReport], ?_⟩
  intro i hi hi'
  simp only [enrichReport, List.get_eq_getElem, List.getElem_map]
  by_cases hmem : (report[i]).User ∈ accountsWithVirtualMfa serials
  · simp [enrichRow, hmem]
  · simp [enrichRow, hmem]

/-- Claim C10 witness: at the demo serials and the demo report, the
enriched row keeps every field except `MfaVirtual`, which becomes the old
value or-ed with the membership bit. -/
theorem enrich_frame_witness :
    (enrichReport demoSerials [demoRow]).length = [demoRow].length ∧
    ((enrichReport demoSerials [demoRow]).get ⟨0, by decide⟩).User =
      ([demoRow].get ⟨0, by decide⟩).User ∧
    ((enrichReport demoSerials [demoRow]).get ⟨0, by decide⟩).AccessKeys =
      ([demoRow].get ⟨0, by decide⟩).AccessKeys ∧
    ((enrichReport demoSerials [demoRow]).get ⟨0, by decide⟩).MfaVirtual =
      (([demoRow].get ⟨0, by decide⟩).MfaVirtual ||
        decide (([demoRow].get ⟨0, by decide⟩).User ∈
          accountsWithVirtualMfa demoSerials)) := by
  have h := enrich_frame demoSerials [demoRow]
  have h2 := h.2 0 (by decide) (by decide)
  exact ⟨h.1, h2.1, h2.2.2.2.2.2.1, h2.2.2.2.2.2.2⟩

lemma retryLoop_advance (env : ReadEnv) :
    ∀ (K fuel k : Nat) (st : Option FlatReport),
      (∀ j, j < K → readAttempt env (k + j) = RetryStep.retryable) →
      K < fuel →
      retryLoop env k fuel st = retryLoop env (k + K) (fuel - K) st := by
  intro K
  induction K with
  | zero => intro fuel k st _ _; simp
  | succ K ih =>
    intro fuel k st h hf
    cases fuel with
    | zero => omega
    | succ fuel' =>
      have h0 : readAttempt env k = RetryStep.retryable := by
        have := h 0 (Nat.succ_pos K)
        simpa using this
      have step : retryLoop env k (fuel' + 1) st =
          retryLoop env (k + 1) fuel' st := by
        simp only [retryLoop, h0]
      rw [step]
      have h' : ∀ j, j < K → readAttempt env (k + 1 + j) = RetryStep.retryable := by
        intro j hj
        have hx := h (j + 1) (by omega)
        have e : k + (j + 1) = k + 1 + j := by omega
        rwa [e] at hx
      rw [ih fuel' (k + 1) st h' (by omega)]
      congr 1 <;> omega

lemma retryLoop_stuck (env : ReadEnv)
    (h : ∀ j, readAttempt env j = RetryStep.retryable) :
    ∀ (fuel k : Nat) (st : Option FlatReport),
      retryLoop env k fuel st = (st, ReadResult.fail ReadError.timeout) := by
  intro fuel
  induction fuel with
  | zero => intro k st; rfl
  | succ n ih =>
    intro k st
    simp only [retryLoop, h k]
    exact ih (k + 1) st

lemma readAttempt_done (env : ReadEnv) (k : Nat) (flat : FlatReport)
    (h : readAttempt env k = RetryStep.done flat) :
    ∃ content report serials,
      env.getReport k = GetReportResult.ok content ∧
      parseCsvCredentialReport content = Except.ok report ∧
      env.listMfa = Except.ok serials ∧
      flat = flattenCredentialReport (enrichReport serials report) := by
  unfold readAttempt at h
  split at h
  · exact absurd h (by simp)
  · exact absurd h (by simp)
  next content hg =>
    split at h
    next e2 hp => exact absurd h (by simp)
    next report hp =>
      split at h
      next e2 hm => exact absurd h (by simp)
      next serials hm =>
        injection h with h2
        exact ⟨content, report, serials, hg, hp, hm, h2.symm⟩

lemma retryLoop_state (env : ReadEnv) :
    ∀ (fuel k : Nat) (st : Option FlatReport),
      (∀ e, (retryLoop env k fuel st).2 = ReadResult.fail e →
        (retryLoop env k fuel st).1 = st) ∧
      ((retryLoop env k fuel st).2 = ReadResult.ok →
        ∃ j content report serials,
          env.getReport j = GetReportResult.ok content ∧
          parseCsvCredentialReport content = Except.ok report ∧
          env.listMfa = Except.ok serials ∧
          (retryLoop env k fuel st).1 =
            some (flattenCredentialReport (enrichReport serials report))) := by
  intro fuel
  induction fuel with
  | zero =>
    intro k st
    exact ⟨fun e _ => rfl, fun h => absurd h (by simp [retryLoop])⟩
  | succ n ih =>
    intro k st
    cases hstep : readAttempt env k with
    | retryable =>
      have hr : retryLoop env k (n + 1) st = retryLoop env (k + 1) n st := by
        simp only [retryLoop, hstep]
      rw [hr]
      exact ih (k + 1) st
    | fatal e' =>
      have hr : retryLoop env k (n + 1) st = (st, ReadResult.fail e') := by
        simp only [retryLoop, hstep]
      rw [hr]
      exact ⟨fun e _ => rfl, fun h => absurd h (by simp)⟩
    | done flat =>
      have hr : retryLoop env k (n + 1) st = (some flat, ReadResult.ok) := by
        simp only [retryLoop, hstep]
      rw [hr]
      refine ⟨fun e he => absurd he (by simp), fun _ => ?_⟩
      obtain ⟨content, report, serials, hg, hp, hm, hflat⟩ :=
        readAttempt_done env k flat hstep
      exact ⟨k, content, report, serials, hg, hp, hm, by rw [hflat]⟩

/-- Claim C2: with report generation succeeding, if the get-report call is
still in progress on the first K attempts and succeeds on attempt K + 1
within the budget (K < fuel) with a parseable report and a successful MFA
listing, the read succeeds with the parsed, enriched, flattened report; if
the attempt after the in-progress prefix fails in any non-retryable way
(transport or parse), the read terminates with that error immediately; and
if every attempt is still in progress, the read fails with the timeout
error once the budget is exhausted. -/
theorem polling_contract (env : ReadEnv) (fuel K : Nat)
    (st : Option FlatReport) (content : List (List String))
    (report : CredentialReport) (serials : List String) (e : ReadError)
    (hgen : env.generate = none)
    (hpoll : ∀ j, j < K → env.getReport j = GetReportResult.inProgress) :
    (env.getReport K = GetReportResult.ok content →
     parseCsvCredentialReport content = Except.ok report →
     env.listMfa = Except.ok serials → K < fuel →
     readOp env fuel st =
       (some (flattenCredentialReport (enrichReport serials report)),
        ReadResult.ok)) ∧
    (readAttempt env K = RetryStep.fatal e → K < fuel →
     readOp env fuel st = (st, ReadResult.fail e)) ∧
    ((∀ j, env.getReport j = GetReportResult.inProgress) →
     readOp env fuel st = (st, ReadResult.fail ReadError.timeout)) := by
  have hretry : ∀ j, j < K → readAttempt env (0 + j) = RetryStep.retryable := by
    intro j hj
    simp [readAttempt, hpoll j hj]
  have hread : readOp env fuel st = retryLoop env 0 fuel st := by
    simp [readOp, hgen]
  refine ⟨?_, ?_, ?_⟩
  · intro hK hparse hmfa hfuel
    rw [hread, retryLoop_advance env K fuel 0 st hretry hfuel]
    obtain ⟨m, hm⟩ : ∃ m, fuel - K = m + 1 := ⟨fuel - K - 1, by omega⟩
    rw [hm]
    have hstep : readAttempt env (0 + K) =
        RetryStep.done (flattenCredentialReport (enrichReport serials report)) := by
      simp [readAttempt, hK, hparse, hmfa]
    simp only [retryLoop, hstep]
  · intro hfatal hfuel
    rw [hread, retryLoop_advance env K fuel 0 st hretry hfuel]
    obtain ⟨m, hm⟩ : ∃ m, fuel - K = m + 1 := ⟨fuel - K - 1, by omega⟩
    rw [hm]
    have hstep : readAttempt env (0 + K) = RetryStep.fatal e := by
      rwa [Nat.zero_add]
    simp only [retryLoop, hstep]
  · intro hall
    have hrall : ∀ j, readAttempt env j = RetryStep.retryable := by
      intro j
      simp [readAttempt, hall j]
    rw [hread, retryLoop_stuck env hrall fuel 0 st]

/-- Claim C2 witness: with the demo environment (in progress on attempts 0
and 1, ready on attempt 2) and budget 5 the read succeeds with the parsed
report, and with the never-ready environment it fails with the timeout
error. -/
theorem polling_contract_witness :
    readOp demoEnv 5 none =
      (some (flattenCredentialReport (enrichReport demoSerials
        ([demoLine].map (parseCsvRow demoHeader)))), ReadResult.ok) ∧
    readOp demoEnvStuck 5 none = (none, ReadResult.fail ReadError.timeout) :=
  ⟨(polling_contract demoEnv 5 2 none demoContent
      ([demoLine].map (parseCsvRow demoHeader)) demoSerials ReadError.timeout
      rfl (by decide)).1 rfl rfl rfl (by decide),
   (polling_contract demoEnvStuck 5 0 none [] [] [] ReadError.timeout
      rfl (fun j hj => rfl)).2.2 (fun j => rfl)⟩

/-- Claim C7: the read is atomic in its output — whenever it returns an
error (generation failure, transport failure, parse failure, MFA-listing
failure, or timeout) the `report` state field keeps its prior value
untouched, and whenever it succeeds the field holds exactly the flattened
enrichment of a successfully fetched and parsed report. -/
theorem read_atomic (env : ReadEnv) (fuel : Nat) (st : Option FlatReport) :
    (∀ e, (readOp env fuel st).2 = ReadResult.fail e →
      (readOp env fuel st).1 = st) ∧
    ((readOp env fuel st).2 = ReadResult.ok →
      ∃ j content report serials,
        env.getReport j = GetReportResult.ok content ∧
        parseCsvCredentialReport content = Except.ok report ∧
        env.listMfa = Except.ok serials ∧
        (readOp env fuel st).1 =
          some (flattenCredentialReport (enrichReport serials report))) := by
  cases hg : env.generate with
  | some e0 =>
    have hr : readOp env fuel st = (st, ReadResult.fail (ReadError.generate e0)) := by
      simp [readOp, hg]
    rw [hr]
    exact ⟨fun e _ => rfl, fun h => absurd h (by simp)⟩
  | none =>
    have hr : readOp env fuel st = retryLoop env 0 fuel st := by
      simp [readOp, hg]
    rw [hr]
    exact retryLoop_state env fuel 0 st

/-- Claim C7 witness: with the always-failing environment the read fails
and the `report` state field keeps its prior value `none`. -/
theorem read_atomic_witness : (readOp demoEnvBroken 3 none).1 = none :=
  (read_atomic demoEnvBroken 3 none).1 (ReadError.getReport "boom") (by rfl)

end CredReport
